import Mathlib

/-!
Verification of the FaceDetector identity-matching and streaming pipeline.

The Python sources are shallowly embedded: embedding vectors are lists of
rationals, Euclidean distances (numpy) are real numbers, the pandas CSV file
and the pickled encodings dict are association lists kept in insertion order,
and the camera/IO layer is modelled by explicit input streams and event
traces.  Fallible persistence steps are modelled by explicit failure flags:
a flag set to `true` means the corresponding write or read raised.
-/

namespace FaceDetector

/-- An embedding vector (`face_recognition` encoding), idealised with exact
rational coordinates. -/
abbrev Vec := List ℚ

/-- Sum of squared coordinate differences of two encodings, the square of the
Euclidean norm that `face_recognition.face_distance` computes. -/
def sumSq (a b : Vec) : ℚ :=
  (List.zipWith (fun x y => (x - y) ^ 2) a b).sum

/-- Euclidean distance between two encodings, as `face_recognition.face_distance`
computes it for one gallery entry (`np.linalg.norm(known - probe)`). -/
noncomputable def faceDist (a b : Vec) : ℝ :=
  Real.sqrt ((sumSq a b : ℚ) : ℝ)

/-- `face_recognition.face_distance(known_encodings, probe)`: the list of
Euclidean distances from the probe to every gallery entry, in gallery order. -/
noncomputable def faceDistances (known : List Vec) (probe : Vec) : List ℝ :=
  known.map (fun v => faceDist v probe)

/-- `face_recognition.compare_faces(known_encodings, probe, tolerance)`:
one boolean per gallery entry, `distance <= tolerance`. -/
noncomputable def compareFaces (known : List Vec) (probe : Vec) (tol : ℝ) : List Bool :=
  (faceDistances known probe).map (fun d => decide (d ≤ tol))

/-- Minimum value and index of its first occurrence in `x :: l`, the semantics
of `np.argmin` (ties resolved to the smallest index). -/
def argminPair [LinearOrder α] : α → List α → α × ℕ
  | x, [] => (x, 0)
  | x, y :: ys =>
    let p := argminPair y ys
    if p.1 < x then (p.1, p.2 + 1) else (x, 0)

/-- `np.argmin` over a list of distances: the index of the first occurrence of
the minimum (`0` for the empty list, on which numpy raises). -/
def argminIdx [LinearOrder α] : List α → ℕ
  | [] => 0
  | x :: xs => (argminPair x xs).2

/-- Minimum of the nonempty list `x :: l`. -/
def listMin [LinearOrder α] : α → List α → α
  | x, [] => x
  | x, y :: ys => min x (listMin y ys)

/-- Minimum of a distance list (`0` for the empty list, which the matcher never
reaches). -/
noncomputable def minDistOf : List ℝ → ℝ
  | [] => 0
  | d :: ds => listMin d ds

/-- The tuple `recognize_faces_in_frame` appends for an unrecognised face:
`("Unknown Person", "Unknown", "Unknown", 0.0)`. -/
noncomputable def unknownInfo : String × String × String × ℝ :=
  (("Unknown Person"), ("Unknown"), ("Unknown"), 0)

/-- Body of `FaceRecognizer.recognize_faces_in_frame` for a single probe
encoding (src/recognize.py lines 79-105): empty-gallery guard, then
`compare_faces`, `np.argmin` over `face_distance`, a recheck of the match flag
at the best index, and confidence `1 - face_distances[best_match_index]`. -/
noncomputable def recognizeFace (knownEncodings : List Vec)
    (knownNames knownClasses knownRollNumbers : List String)
    (tolerance : ℝ) (probe : Vec) : String × String × String × ℝ :=
  if knownEncodings = [] then unknownInfo
  else
    let matchFlags := compareFaces knownEncodings probe tolerance
    if true ∈ matchFlags then
      let fd := faceDistances knownEncodings probe
      let i := argminIdx fd
      if matchFlags.getD i false then
        (knownNames.getD i (("")), knownClasses.getD i (("")),
          knownRollNumbers.getD i (("")), 1 - fd.getD i 0)
      else unknownInfo
    else unknownInfo

/-- The Matcher exactly as §4.2 of the spec words it: `Unknown` on an empty
snapshot; otherwise the entry of minimum Euclidean distance, ties broken by
the earliest occurrence in the snapshot sequence, identified with confidence
`1 - min_distance` (unclamped) when `min_distance ≤ τ`, else `Unknown`. -/
noncomputable def matcherSpec (knownEncodings : List Vec)
    (knownNames knownClasses knownRollNumbers : List String)
    (tolerance : ℝ) (probe : Vec) : String × String × String × ℝ :=
  if knownEncodings = [] then unknownInfo
  else
    let dists := faceDistances knownEncodings probe
    let m := minDistOf dists
    if m ≤ tolerance then
      let i := dists.findIdx (fun d => decide (d = m))
      (knownNames.getD i (("")), knownClasses.getD i (("")),
        knownRollNumbers.getD i (("")), 1 - m)
    else unknownInfo

/-- A face bounding box in the `(top, right, bottom, left)` convention of
`face_recognition.face_locations`. -/
structure Box where
  top : ℤ
  right : ℤ
  bottom : ℤ
  left : ℤ
deriving DecidableEq

/-- Scaling a detected box back to full resolution: every coordinate times 4,
the inverse of the fixed 0.25 downscale factor
(`(top*4, right*4, bottom*4, left*4)`). -/
def scaleBox (b : Box) : Box :=
  ⟨b.top * 4, b.right * 4, b.bottom * 4, b.left * 4⟩

/-- The box/result pairing of `FaceRecognizer.draw_face_info`
(src/recognize.py lines 121-124): scale every detected box by 4, then `zip`
the scaled boxes with the per-face info list, preserving order. -/
def draw_face_info (face_locations : List Box) (face_info : List α) : List (Box × α) :=
  (face_locations.map scaleBox).zip face_info

/-- The drawing operations of `web_deploy.recognize_faces_in_frame`
(src/web_deploy.py lines 67-97): the boxes are scaled once, then for EVERY
per-encoding label the code loops over ALL scaled boxes and draws that label
on each of them (a nested loop, not a zip). -/
def web_draw_ops (face_locations : List Box) (labels : List String) : List (Box × String) :=
  labels.flatMap (fun name => (face_locations.map scaleBox).map (fun b => (b, name)))

/-- Person details as entered at registration, before an id is assigned. -/
structure PersonData where
  name : String
  class_name : String
  roll_number : String
  email : String
  phone : String
  registration_date : String
deriving DecidableEq

/-- One row of `data/person_details.csv`. -/
structure PersonRow where
  id : ℤ
  name : String
  class_name : String
  roll_number : String
  email : String
  phone : String
  registration_date : String
deriving DecidableEq

/-- `person_data['id'] = person_id` followed by appending the row: the stored
row is the input data with the assigned id. -/
def mkRow (pid : ℤ) (p : PersonData) : PersonRow :=
  ⟨pid, p.name, p.class_name, p.roll_number, p.email, p.phone, p.registration_date⟩

/-- `df['id'].max()` of a pandas integer column (`0` for the empty column,
which `get_next_id` guards against). -/
def seriesMax : List ℤ → ℤ
  | [] => 0
  | [x] => x
  | x :: y :: ys => max x (seriesMax (y :: ys))

/-- `DataManager.get_next_id` (src/data_manager.py lines 58-63): `1` for an
empty table, else the maximum stored id plus one. -/
def get_next_id (rows : List PersonRow) : ℤ :=
  if rows = [] then 1 else seriesMax (rows.map PersonRow.id) + 1

/-- Python dict assignment `encodings[k] = v` on an insertion-ordered dict:
update in place when the key exists, else append. -/
def dict_insert (d : List (ℤ × Vec)) (k : ℤ) (v : Vec) : List (ℤ × Vec) :=
  if d.any (fun q => q.1 == k) then
    d.map (fun q => if q.1 == k then (k, v) else q)
  else d ++ [(k, v)]

/-- `DataManager.get_person_by_id` (src/data_manager.py lines 92-98): filter
the table on the id and return the first hit, `none` when absent. -/
def get_person_by_id (rows : List PersonRow) (pid : ℤ) : Option PersonRow :=
  (rows.filter (fun r => r.id == pid)).head?

/-- `DataManager.get_all_encodings` (src/data_manager.py lines 100-114): the
encodings and person ids of the dict, in insertion order. -/
def get_all_encodings (d : List (ℤ × Vec)) : List Vec × List ℤ :=
  (d.map Prod.snd, d.map Prod.fst)

/-- The persistent state of a data manager: the CSV rows on disk, the
in-memory encodings dict, and the encodings dict as last pickled to disk. -/
structure PStore where
  csv_rows : List PersonRow
  enc_mem : List (ℤ × Vec)
  enc_file : List (ℤ × Vec)
deriving DecidableEq

/-- A store with no person enrolled. -/
def empty_store : PStore := ⟨[], [], []⟩

/-- `DataManager.add_person` (src/data_manager.py lines 65-90) with explicit
failure flags for the fallible steps, each raising when `true`:
`read_fails` for `pd.read_csv`, `write_fails` for `df.to_csv`, `enc_fails`
for `pickle.dump` inside `_save_encodings`.  DataManager has no handler, so a
raise propagates: the result is `none` and no id is returned.  Note that when
only `pickle.dump` fails the CSV row is already on disk and the in-memory
dict already updated — the §7 crash window. -/
def add_person (read_fails write_fails enc_fails : Bool) (s : PStore)
    (p : PersonData) (e : Vec) : PStore × Option ℤ :=
  let pid := get_next_id s.csv_rows
  if read_fails then (s, none)
  else if write_fails then (s, none)
  else
    let s1 : PStore := { s with csv_rows := s.csv_rows ++ [mkRow pid p] }
    let mem := dict_insert s1.enc_mem pid e
    if enc_fails then ({ s1 with enc_mem := mem }, none)
    else ({ s1 with enc_mem := mem, enc_file := mem }, some pid)

/-- Enrolling a list of people through the no-failure path of `add_person`. -/
def enroll_all (s : PStore) : List (PersonData × Vec) → PStore
  | [] => s
  | (p, e) :: rest => enroll_all (add_person false false false s p e).1 rest

/-- `SimpleDataManager.get_next_id` (src/simple_data_manager.py lines 60-69):
the same computation wrapped in a `try` that catches any read exception and
returns `1`. -/
def simple_get_next_id (read_fails : Bool) (rows : List PersonRow) : ℤ :=
  if read_fails then 1
  else if rows = [] then 1 else seriesMax (rows.map PersonRow.id) + 1

/-- `SimpleDataManager.add_person` (src/simple_data_manager.py lines 71-91):
the whole body is wrapped in a `try` that returns `-1` on any exception; the
`next_read_fails` flag is the read inside `get_next_id` (caught there,
yielding id `1`), `read_fails`/`write_fails` are the CSV read/write of
`add_person` itself (caught, returning `-1`), and `enc_fails` is
`pickle.dump` — caught INSIDE `_save_encodings`, so `add_person` still
returns the id as if the enrollment succeeded. -/
def simple_add_person (next_read_fails read_fails write_fails enc_fails : Bool)
    (s : PStore) (p : PersonData) (e : Vec) : PStore × ℤ :=
  let pid := simple_get_next_id next_read_fails s.csv_rows
  if read_fails then (s, -1)
  else if write_fails then (s, -1)
  else
    let s1 : PStore := { s with csv_rows := s.csv_rows ++ [mkRow pid p] }
    let mem := dict_insert s1.enc_mem pid e
    if enc_fails then ({ s1 with enc_mem := mem }, pid)
    else ({ s1 with enc_mem := mem, enc_file := mem }, pid)

/-- `FaceRecognizer.load_known_faces` (src/recognize.py lines 34-57): load the
encodings and ids from the pickled dict, then for each id look the person up
in the CSV and append name/class/roll ONLY when the lookup succeeds — an id
with no CSV row is skipped without any report, shortening and misaligning the
metadata lists. -/
def load_known_faces (enc_file : List (ℤ × Vec)) (rows : List PersonRow) :
    List Vec × List ℤ × List String × List String × List String :=
  let encs := (get_all_encodings enc_file).1
  let ids := (get_all_encodings enc_file).2
  let found := ids.filterMap (fun i => get_person_by_id rows i)
  (encs, ids, found.map PersonRow.name, found.map PersonRow.class_name,
    found.map PersonRow.roll_number)

/-- The bounded capture loop of `register.capture_from_webcam`
(src/register.py lines 138-191), one recursive call per iteration of
`while capture_attempts < max_attempts`.  Per-iteration inputs at time `t`:
`reads t` (frame read succeeded), `faces t` (a face was detected), `encOk t`
(an encoding could be generated), `keys t` (the key code; 32 is SPACE, 27 is
ESC).  The first argument is the remaining attempt budget. -/
def capture_loop (reads faces encOk : ℕ → Bool) (keys : ℕ → ℕ) : ℕ → ℕ → Option Unit
  | 0, _ => none
  | fuel + 1, t =>
    if !reads t then none
    else if (keys t == 32) && faces t && encOk t then some ()
    else if keys t == 27 then none
    else capture_loop reads faces encOk keys fuel (t + 1)

/-- Number of iterations the capture loop actually executes, mirroring
`capture_loop` branch for branch. -/
def capture_iters (reads faces encOk : ℕ → Bool) (keys : ℕ → ℕ) : ℕ → ℕ → ℕ
  | 0, _ => 0
  | fuel + 1, t =>
    if !reads t then 1
    else if (keys t == 32) && faces t && encOk t then 1
    else if keys t == 27 then 1
    else 1 + capture_iters reads faces encOk keys fuel (t + 1)

/-- `register.capture_from_webcam(camera_index)` (src/register.py lines
107-206): `none` when the camera at that index does not open, otherwise the
outcome of the capture loop with `max_attempts = 100`, starting at attempt 0. -/
def capture_from_webcam (avail : ℕ → Bool) (reads faces encOk : ℕ → ℕ → Bool)
    (keys : ℕ → ℕ → ℕ) (i : ℕ) : Option Unit :=
  if avail i then capture_loop (reads i) (faces i) (encOk i) (keys i) 100 0 else none

/-- The fixed camera fallback order of `register.capture_face_encoding`
(src/register.py line 96): `for camera_index in [0, 1, 2]`. -/
def camera_fallback : List ℕ := [0, 1, 2]

/-- The fallback loop of `register.capture_face_encoding` (src/register.py
lines 96-104): try each index in order, return the first successful capture,
report failure only when every index has failed. -/
def try_cameras (f : ℕ → Option Unit) : List ℕ → Option Unit
  | [] => none
  | i :: is =>
    match f i with
    | some v => some v
    | none => try_cameras f is

/-- `register.capture_face_encoding`: the fallback loop over `[0, 1, 2]`. -/
def capture_face_encoding (avail : ℕ → Bool) (reads faces encOk : ℕ → ℕ → Bool)
    (keys : ℕ → ℕ → ℕ) : Option Unit :=
  try_cameras (capture_from_webcam avail reads faces encOk keys) camera_fallback

/-- Camera resource events: an open attempt that succeeded, one that failed,
and a release of the handle. -/
inductive CamEvent where
  | opened : ℕ → CamEvent
  | openFailed : ℕ → CamEvent
  | released : ℕ → CamEvent
deriving DecidableEq

/-- Resource trace of one `capture_from_webcam` attempt: the `finally` block
(src/register.py lines 202-206) releases the handle on every exit path, after
a failed open included (`cap` is not `None` there). -/
def capture_from_webcam_trace (avail : ℕ → Bool) (i : ℕ) : List CamEvent :=
  if avail i then [CamEvent.opened i, CamEvent.released i]
  else [CamEvent.openFailed i, CamEvent.released i]

/-- The camera indices `capture_face_encoding` actually tries: each index of
the fallback list until (and including) the first successful attempt. -/
def tried_indices (f : ℕ → Option Unit) : List ℕ → List ℕ
  | [] => []
  | i :: is => i :: (if (f i).isSome then [] else tried_indices f is)

/-- Resource trace of a whole `capture_face_encoding` call. -/
def capture_face_encoding_trace (avail : ℕ → Bool) (f : ℕ → Option Unit) : List CamEvent :=
  (tried_indices f camera_fallback).flatMap (capture_from_webcam_trace avail)

/-- Outcome of the camera-open step of `FaceRecognizer.run_recognition`. -/
inductive StartResult where
  | cameraUnavailable : StartResult
  | streaming : StartResult
deriving DecidableEq

/-- The camera-open step of `FaceRecognizer.run_recognition`
(src/recognize.py lines 165-169): a single fixed index, `cv2.VideoCapture(0)`;
when it does not open the function prints an error and returns before any
frame is processed. -/
def run_recognition_open (avail : ℕ → Bool) : StartResult :=
  if avail 0 then StartResult.streaming else StartResult.cameraUnavailable

/-- Resource trace of `run_recognition`: on a successful open the `finally`
block (src/recognize.py lines 225-228) releases the camera on every exit of
the streaming loop; on a failed open the function returns without having
acquired a device. -/
def run_recognition_trace (avail : ℕ → Bool) : List CamEvent :=
  if avail 0 then [CamEvent.opened 0, CamEvent.released 0]
  else [CamEvent.openFailed 0]

/-- Loop state of the interactive recognition loop of
`FaceRecognizer.run_recognition` (src/recognize.py lines 184-220). -/
structure RecogState where
  frame_count : ℕ
  tolerance : ℚ
  running : Bool
deriving DecidableEq

/-- One iteration of the `while True` recognition loop: break on a failed
read; otherwise process the frame, increment `frame_count`, then handle the
key — `q` (113) breaks, `t` (116) toggles the tolerance between the presets
0.6 and 0.9, any other key continues.  There is no iteration bound. -/
def recog_step (reads : ℕ → Bool) (keys : ℕ → ℕ) (s : RecogState) : RecogState :=
  if !s.running then s
  else if !reads s.frame_count then { s with running := false }
  else if keys s.frame_count == 113 then
    { s with frame_count := s.frame_count + 1, running := false }
  else if keys s.frame_count == 116 then
    { s with frame_count := s.frame_count + 1,
             tolerance := if s.tolerance = 0.6 then 0.9 else 0.6 }
  else { s with frame_count := s.frame_count + 1 }

/-- The recognition loop after `n` iterations, started with tolerance 0.6. -/
def recog_run (reads : ℕ → Bool) (keys : ℕ → ℕ) : ℕ → RecogState
  | 0 => ⟨0, 0.6, true⟩
  | n + 1 => recog_step reads keys (recog_run reads keys n)

/-- The `while True` loop of `web_deploy.generate_frames` (src/web_deploy.py
lines 105-122) after `n` iterations: `(frames yielded, still running)`.  A
failed frame grab or a failed JPEG encode `continue`s; no branch leaves the
loop. -/
def gen_frames_state (frameOk encodeOk : ℕ → Bool) : ℕ → ℕ × Bool
  | 0 => (0, true)
  | n + 1 =>
    let s := gen_frames_state frameOk encodeOk n
    if frameOk n && encodeOk n then (s.1 + 1, true) else (s.1, true)

/-- Sample person detail used by concrete instances below. -/
def sample_person : PersonData :=
  ⟨("Alice"), ("ClassA"), ("R1"), (""), (""), ("2024-01-01")⟩

/-- Sample encoding vector. -/
def sample_vec : Vec := [1]

/-- Second sample encoding vector. -/
def sample_vec2 : Vec := [2]

/-- A CSV row for person id 2, with no counterpart for id 1. -/
def sample_row2 : PersonRow :=
  ⟨2, ("Bob"), ("ClassB"), ("R2"), (""), (""), ("2024-01-02")⟩

/-- A CSV row with id 1. -/
def sample_row1 : PersonRow :=
  ⟨1, ("Carol"), ("ClassC"), ("R3"), (""), (""), ("2024-01-03")⟩

/-- Sample detected box of the spec's worked example. -/
def boxA : Box := ⟨10, 20, 30, 40⟩

/-- A second sample detected box. -/
def boxB : Box := ⟨50, 60, 70, 80⟩

/-! ### List helpers for the matcher proofs -/

theorem getD_map_of_lt (f : α → β) :
    ∀ (l : List α) (n : ℕ), n < l.length → ∀ (a : α) (b : β),
      (l.map f).getD n b = f (l.getD n a)
  | [], n, h, _, _ => absurd h (by simp)
  | x :: xs, 0, _, _, _ => rfl
  | x :: xs, n + 1, h, a, b => by
    simpa [List.getD_cons_succ] using
      getD_map_of_lt f xs n (by simpa using h) a b

theorem getD_mem_of_lt : ∀ (l : List α) (n : ℕ), n < l.length → ∀ (a : α), l.getD n a ∈ l
  | [], n, h, _ => absurd h (by simp)
  | x :: xs, 0, _, _ => List.mem_cons_self x xs
  | x :: xs, n + 1, h, a =>
    List.mem_cons_of_mem x (getD_mem_of_lt xs n (by simpa using h) a)

theorem mem_exists_getD (l : List α) (a x : α) (h : a ∈ l) :
    ∃ n, n < l.length ∧ l.getD n x = a := by
  induction l with
  | nil => simp at h
  | cons y ys ih =>
    rcases List.mem_cons.mp h with h1 | h2
    · exact ⟨0, by simp, by simp [h1]⟩
    · rcases ih h2 with ⟨n, hn, hg⟩
      exact ⟨n + 1, by simpa using Nat.succ_lt_succ hn, by simpa using hg⟩

theorem listMin_le [LinearOrder α] (x : α) (l : List α) :
    ∀ a ∈ x :: l, listMin x l ≤ a := by
  induction l generalizing x with
  | nil =>
    intro a ha
    rcases List.mem_cons.mp ha with h1 | h1
    · simp [listMin, h1]
    · simp at h1
  | cons y ys ih =>
    intro a ha
    rcases List.mem_cons.mp ha with h1 | h1
    · simp [listMin, h1, min_le_left]
    · exact le_trans (min_le_right x (listMin y ys)) (ih y a h1)

theorem listMin_mem [LinearOrder α] (x : α) (l : List α) : listMin x l ∈ x :: l := by
  induction l generalizing x with
  | nil => simp [listMin]
  | cons y ys ih =>
    simp only [listMin]
    rcases le_total x (listMin y ys) with h | h
    · simp [min_eq_left h]
    · rw [min_eq_right h]
      exact List.mem_cons_of_mem x (ih y)

theorem argminPair_fst [LinearOrder α] (x : α) (l : List α) :
    (argminPair x l).1 = listMin x l := by
  induction l generalizing x with
  | nil => rfl
  | cons y ys ih =>
    by_cases h : (argminPair y ys).1 < x
    · have h2 : argminPair x (y :: ys) = ((argminPair y ys).1, (argminPair y ys).2 + 1) := by
        simp [argminPair, h]
      rw [h2]
      rw [ih] at h ⊢
      simp [listMin, min_eq_right h.le]
    · have h2 : argminPair x (y :: ys) = (x, 0) := by
        simp [argminPair, h]
      rw [h2]
      rw [ih] at h
      simp [listMin, min_eq_left (le_of_not_lt h)]

theorem argminPair_snd_lt [LinearOrder α] (x : α) (l : List α) :
    (argminPair x l).2 < (x :: l).length := by
  induction l generalizing x with
  | nil => simp [argminPair]
  | cons y ys ih =>
    by_cases h : (argminPair y ys).1 < x
    · have h2 : argminPair x (y :: ys) = ((argminPair y ys).1, (argminPair y ys).2 + 1) := by
        simp [argminPair, h]
      rw [h2]
      have := ih y
      simp only [List.length_cons] at this ⊢
      omega
    · have h2 : argminPair x (y :: ys) = (x, 0) := by
        simp [argminPair, h]
      rw [h2]
      simp

theorem argminPair_getD [LinearOrder α] (x : α) (l : List α) (d : α) :
    (x :: l).getD (argminPair x l).2 d = listMin x l := by
  induction l generalizing x with
  | nil => rfl
  | cons y ys ih =>
    by_cases h : (argminPair y ys).1 < x
    · have h2 : argminPair x (y :: ys) = ((argminPair y ys).1, (argminPair y ys).2 + 1) := by
        simp [argminPair, h]
      rw [h2]
      have h3 : (x :: y :: ys).getD ((argminPair y ys).2 + 1) d =
          (y :: ys).getD (argminPair y ys).2 d := rfl
      rw [h3, ih]
      rw [argminPair_fst] at h
      simp [listMin, min_eq_right h.le]
    · have h2 : argminPair x (y :: ys) = (x, 0) := by
        simp [argminPair, h]
      rw [h2]
      rw [argminPair_fst] at h
      simp [listMin, min_eq_left (le_of_not_lt h)]

theorem argminPair_before [LinearOrder α] (x : α) (l : List α) (d : α) :
    ∀ k, k < (argminPair x l).2 → listMin x l < (x :: l).getD k d := by
  induction l generalizing x with
  | nil =>
    intro k hk
    simp [argminPair] at hk
  | cons y ys ih =>
    intro k hk
    by_cases h : (argminPair y ys).1 < x
    · have h2 : argminPair x (y :: ys) = ((argminPair y ys).1, (argminPair y ys).2 + 1) := by
        simp [argminPair, h]
      rw [h2] at hk
      rw [argminPair_fst] at h
      have hmin : listMin x (y :: ys) = listMin y ys := by
        simp [listMin, min_eq_right h.le]
      cases k with
      | zero => simpa [hmin] using h
      | succ k2 =>
        have hk2 : k2 < (argminPair y ys).2 := by
          simp at hk
          omega
        have h4 := ih y k2 hk2
        simpa [hmin, List.getD_cons_succ] using h4
    · have h2 : argminPair x (y :: ys) = (x, 0) := by
        simp [argminPair, h]
      rw [h2] at hk
      simp at hk

theorem findIdx_eq_of_getD (p : α → Bool) (d : α) :
    ∀ (l : List α) (n : ℕ), n < l.length → p (l.getD n d) = true →
      (∀ k, k < n → p (l.getD k d) = false) → l.findIdx p = n := by
  intro l
  induction l with
  | nil =>
    intro n hn
    simp at hn
  | cons x xs ih =>
    intro n hn hp hk
    cases n with
    | zero =>
      have hx : p x = true := by simpa using hp
      simp [List.findIdx_cons, hx]
    | succ n2 =>
      have hx : p x = false := by simpa using hk 0 (Nat.succ_pos n2)
      have hrec : xs.findIdx p = n2 :=
        ih n2 (by simpa using hn) (by simpa using hp)
          (fun k hk2 => by simpa using hk (k + 1) (Nat.succ_lt_succ hk2))
      simp [List.findIdx_cons, hx, hrec]

/-! ### Nonempty distance-list facts, specialised to the matcher -/

theorem minDistOf_le (ds : List ℝ) (a : ℝ) (ha : a ∈ ds) : minDistOf ds ≤ a := by
  match ds with
  | [] => simp at ha
  | d0 :: tl => exact listMin_le d0 tl a ha

theorem minDistOf_mem (ds : List ℝ) (hne : ds ≠ []) : minDistOf ds ∈ ds := by
  match ds, hne with
  | d0 :: tl, _ => exact listMin_mem d0 tl

theorem argminIdx_lt (ds : List ℝ) (hne : ds ≠ []) : argminIdx ds < ds.length := by
  match ds, hne with
  | d0 :: tl, _ => exact argminPair_snd_lt d0 tl

theorem getD_argminIdx (ds : List ℝ) (hne : ds ≠ []) (d : ℝ) :
    ds.getD (argminIdx ds) d = minDistOf ds := by
  match ds, hne with
  | d0 :: tl, _ => exact argminPair_getD d0 tl d

theorem lt_getD_of_lt_argminIdx (ds : List ℝ) (d : ℝ) (k : ℕ)
    (hk : k < argminIdx ds) : minDistOf ds < ds.getD k d := by
  match ds with
  | [] => simp [argminIdx] at hk
  | d0 :: tl => exact argminPair_before d0 tl d k hk

theorem findIdx_minDist (ds : List ℝ) (hne : ds ≠ []) :
    ds.findIdx (fun a => decide (a = minDistOf ds)) = argminIdx ds := by
  refine findIdx_eq_of_getD _ (minDistOf ds) ds (argminIdx ds)
    (argminIdx_lt ds hne) ?_ ?_
  · rw [getD_argminIdx ds hne]
    simp
  · intro k hk
    have h := lt_getD_of_lt_argminIdx ds (minDistOf ds) k hk
    simp only [decide_eq_false_iff_not]
    exact fun hEq => absurd (hEq ▸ h) (lt_irrefl _)

theorem argminIdx_eq_of_first (ds : List ℝ) (d : ℝ) (i : ℕ) (hi : i < ds.length)
    (hmin : ∀ j, j < ds.length → ds.getD i d ≤ ds.getD j d)
    (hfirst : ∀ j, j < i → ds.getD i d < ds.getD j d) :
    argminIdx ds = i ∧ minDistOf ds = ds.getD i d := by
  have hne : ds ≠ [] := by
    intro h
    rw [h] at hi
    simp at hi
  have hmem : ds.getD i d ∈ ds := getD_mem_of_lt ds i hi d
  have h1 : minDistOf ds ≤ ds.getD i d := minDistOf_le ds _ hmem
  have h2 : ds.getD i d ≤ minDistOf ds := by
    rcases mem_exists_getD ds (minDistOf ds) d (minDistOf_mem ds hne) with ⟨j, hj, hgj⟩
    calc ds.getD i d ≤ ds.getD j d := hmin j hj
    _ = minDistOf ds := hgj
  have hEq : minDistOf ds = ds.getD i d := le_antisymm h1 h2
  refine ⟨?_, hEq⟩
  rcases Nat.lt_trichotomy (argminIdx ds) i with h | h | h
  · have h3 := hfirst _ h
    rw [getD_argminIdx ds hne, hEq] at h3
    exact absurd h3 (lt_irrefl _)
  · exact h
  · have h3 := lt_getD_of_lt_argminIdx ds d i h
    rw [hEq] at h3
    exact absurd h3 (lt_irrefl _)


/-- The gating logic of the per-face recognition body is equivalent to the
spec's single `min_distance ≤ τ` test, over any nonempty distance list. -/
theorem matcher_branch_eq (ds : List ℝ) (hne : ds ≠ [])
    (names classes rolls : List String) (τ : ℝ) :
    (if true ∈ ds.map (fun d => decide (d ≤ τ)) then
      if (ds.map (fun d => decide (d ≤ τ))).getD (argminIdx ds) false then
        (names.getD (argminIdx ds) (("")), classes.getD (argminIdx ds) (("")),
          rolls.getD (argminIdx ds) (("")), 1 - ds.getD (argminIdx ds) 0)
      else unknownInfo
    else unknownInfo) =
    (if minDistOf ds ≤ τ then
      (names.getD (ds.findIdx (fun d => decide (d = minDistOf ds))) (("")),
        classes.getD (ds.findIdx (fun d => decide (d = minDistOf ds))) (("")),
        rolls.getD (ds.findIdx (fun d => decide (d = minDistOf ds))) (("")),
        1 - minDistOf ds)
    else unknownInfo) := by
  by_cases hτ : minDistOf ds ≤ τ
  · have hmem : true ∈ ds.map (fun d => decide (d ≤ τ)) :=
      List.mem_map.mpr ⟨minDistOf ds, minDistOf_mem ds hne, by simpa using hτ⟩
    have hlt := argminIdx_lt ds hne
    have hget := getD_argminIdx ds hne 0
    have hflag : (ds.map (fun d => decide (d ≤ τ))).getD (argminIdx ds) false = true := by
      rw [getD_map_of_lt (fun d => decide (d ≤ τ)) ds (argminIdx ds) hlt 0 false]
      rw [hget]
      simpa using hτ
    rw [if_pos hmem, if_pos hflag, if_pos hτ, findIdx_minDist ds hne, hget]
  · have hnomem : true ∉ ds.map (fun d => decide (d ≤ τ)) := by
      intro hmem
      rcases List.mem_map.mp hmem with ⟨a, ha, hdec⟩
      exact hτ (le_trans (minDistOf_le ds a ha) (of_decide_eq_true hdec))
    rw [if_neg hnomem, if_neg hτ]


/-- Claim C1: for every probe vector and gallery snapshot the per-face body of
`recognize_faces_in_frame` behaves exactly as the spec's Matcher: `Unknown`
with confidence 0.0 on an empty snapshot; otherwise it computes the Euclidean
distance from the probe to every entry and, when the minimum distance is at
most the tolerance τ, returns the minimum-distance entry (first occurrence)
with confidence exactly `1 - min_distance`, unclamped, else `Unknown` with
confidence 0.0. -/
theorem recognize_face_eq_matcher_spec (known : List Vec)
    (names classes rolls : List String) (τ : ℝ) (probe : Vec) :
    recognizeFace known names classes rolls τ probe =
      matcherSpec known names classes rolls τ probe := by
  by_cases hk : known = []
  · subst hk
    rfl
  · have hne : faceDistances known probe ≠ [] := by
      simpa [faceDistances] using hk
    have h := matcher_branch_eq (faceDistances known probe) hne names classes rolls τ
    simp only [recognizeFace, matcherSpec, compareFaces, if_neg hk]
    exact h


/-- Claim C2: whenever index `i` attains the minimum distance and every
earlier index is strictly farther (so in particular when two or more entries
tie at the minimum and `i` is the first of them), the matcher returns entry
`i`, the one occurring first in the snapshot sequence.  The matcher is a pure
function, so the result is deterministic for fixed inputs. -/
theorem matcher_picks_first_minimum (known : List Vec)
    (names classes rolls : List String) (τ : ℝ) (probe : Vec) (i : ℕ)
    (hi : i < known.length)
    (hmin : ∀ j, j < known.length →
      faceDist (known.getD i ([])) probe ≤ faceDist (known.getD j ([])) probe)
    (hfirst : ∀ j, j < i →
      faceDist (known.getD i ([])) probe < faceDist (known.getD j ([])) probe)
    (hτ : faceDist (known.getD i ([])) probe ≤ τ) :
    recognizeFace known names classes rolls τ probe =
      (names.getD i (("")), classes.getD i (("")), rolls.getD i (("")),
        1 - faceDist (known.getD i ([])) probe) := by
  have hk : known ≠ [] := by
    intro h
    rw [h] at hi
    simp at hi
  have hne : faceDistances known probe ≠ [] := by
    simpa [faceDistances] using hk
  have hgd : ∀ j, j < known.length →
      (faceDistances known probe).getD j 0 = faceDist (known.getD j ([])) probe := by
    intro j hj
    exact getD_map_of_lt (fun w => faceDist w probe) known j hj ([]) 0
  have hilen : i < (faceDistances known probe).length := by
    simpa [faceDistances] using hi
  have hmin2 : ∀ j, j < (faceDistances known probe).length →
      (faceDistances known probe).getD i 0 ≤ (faceDistances known probe).getD j 0 := by
    intro j hj
    have hj2 : j < known.length := by simpa [faceDistances] using hj
    rw [hgd i hi, hgd j hj2]
    exact hmin j hj2
  have hfirst2 : ∀ j, j < i →
      (faceDistances known probe).getD i 0 < (faceDistances known probe).getD j 0 := by
    intro j hj
    rw [hgd i hi, hgd j (lt_trans hj hi)]
    exact hfirst j hj
  obtain ⟨hargmin, _⟩ :=
    argminIdx_eq_of_first (faceDistances known probe) 0 i hilen hmin2 hfirst2
  have hdi : (faceDistances known probe).getD i 0 =
      faceDist (known.getD i ([])) probe := hgd i hi
  have hmem : true ∈ (faceDistances known probe).map (fun d => decide (d ≤ τ)) := by
    refine List.mem_map.mpr
      ⟨(faceDistances known probe).getD i 0, getD_mem_of_lt _ i hilen 0, ?_⟩
    rw [hdi]
    simpa using hτ
  have hflag : ((faceDistances known probe).map (fun d => decide (d ≤ τ))).getD
      (argminIdx (faceDistances known probe)) false = true := by
    rw [getD_map_of_lt (fun d => decide (d ≤ τ)) _ _ (argminIdx_lt _ hne) 0 false]
    rw [hargmin, hdi]
    simpa using hτ
  simp only [recognizeFace, compareFaces, if_neg hk]
  rw [if_pos hmem, if_pos hflag, hargmin, hdi]

/-- Concrete evaluation: distance from probe `[0,0]` to gallery entry `[1,0]`. -/
theorem faceDist_ex1 : faceDist ([(1 : ℚ), 0]) ([0, 0]) = 1 := by
  show Real.sqrt ((sumSq ([(1 : ℚ), 0]) ([0, 0]) : ℚ) : ℝ) = 1
  have h : sumSq ([(1 : ℚ), 0]) ([0, 0]) = 1 := by norm_num [sumSq]
  rw [h]
  simp

/-- Concrete evaluation: distance from probe `[0,0]` to gallery entry `[0,1]`. -/
theorem faceDist_ex2 : faceDist ([(0 : ℚ), 1]) ([0, 0]) = 1 := by
  show Real.sqrt ((sumSq ([(0 : ℚ), 1]) ([0, 0]) : ℚ) : ℝ) = 1
  have h : sumSq ([(0 : ℚ), 1]) ([0, 0]) = 1 := by norm_num [sumSq]
  rw [h]
  simp

/-- Witness for C2: a gallery of two entries equidistant (distance 1) from the
probe; with τ = 2 the matcher identifies the first entry. -/
theorem matcher_picks_first_minimum_witness :
    ((0 : ℕ) < ([[(1 : ℚ), 0], [0, 1]] : List Vec).length) ∧
    recognizeFace ([[(1 : ℚ), 0], [0, 1]]) (["A", "B"]) (["CA", "CB"])
        (["RA", "RB"]) 2 ([0, 0]) =
      ((["A", "B"]).getD 0 (("")), (["CA", "CB"]).getD 0 (("")),
        (["RA", "RB"]).getD 0 (("")),
        1 - faceDist (([[(1 : ℚ), 0], [0, 1]] : List Vec).getD 0 ([])) ([0, 0])) := by
  refine ⟨by simp, ?_⟩
  refine matcher_picks_first_minimum ([[(1 : ℚ), 0], [0, 1]]) (["A", "B"])
    (["CA", "CB"]) (["RA", "RB"]) 2 ([0, 0]) 0 (by simp) ?_ ?_ ?_
  · intro j hj
    have hj2 : j < 2 := by simpa using hj
    interval_cases j
    · exact le_refl _
    · show faceDist ([(1 : ℚ), 0]) ([0, 0]) ≤ faceDist ([(0 : ℚ), 1]) ([0, 0])
      rw [faceDist_ex1, faceDist_ex2]
  · intro j hj
    exact absurd hj (Nat.not_lt_zero j)
  · show faceDist ([(1 : ℚ), 0]) ([0, 0]) ≤ 2
    rw [faceDist_ex1]
    norm_num

/-! ### Gallery store: id assignment -/

theorem seriesMax_le : ∀ (l : List ℤ) (a : ℤ), a ∈ l → a ≤ seriesMax l
  | [], a, h => absurd h (by simp)
  | [x], a, h => by
    have hax : a = x := by simpa using h
    simp [seriesMax, hax]
  | x :: y :: ys, a, h => by
    rcases List.mem_cons.mp h with h1 | h2
    · show a ≤ max x (seriesMax (y :: ys))
      rw [h1]
      exact le_max_left x _
    · show a ≤ max x (seriesMax (y :: ys))
      exact le_trans (seriesMax_le (y :: ys) a h2) (le_max_right x _)

theorem seriesMax_mem : ∀ (l : List ℤ), l ≠ [] → seriesMax l ∈ l
  | [], h => absurd rfl h
  | [x], _ => by simp [seriesMax]
  | x :: y :: ys, _ => by
    show max x (seriesMax (y :: ys)) ∈ x :: y :: ys
    rcases le_total x (seriesMax (y :: ys)) with h | h
    · rw [max_eq_right h]
      exact List.mem_cons_of_mem x (seriesMax_mem (y :: ys) (by simp))
    · rw [max_eq_left h]
      exact List.mem_cons_self x _

theorem seriesMax_append_one (l : List ℤ) (a : ℤ) :
    seriesMax (l ++ [a]) = if l = [] then a else max (seriesMax l) a := by
  induction l with
  | nil => simp [seriesMax]
  | cons x xs ih =>
    cases xs with
    | nil => simp [seriesMax]
    | cons y ys =>
      show max x (seriesMax ((y :: ys) ++ [a])) =
        if (x :: y :: ys : List ℤ) = [] then a else max (seriesMax (x :: y :: ys)) a
      rw [if_neg (by simp)]
      have hih : seriesMax ((y :: ys) ++ [a]) = max (seriesMax (y :: ys)) a := by
        rw [ih, if_neg (by simp)]
      rw [hih]
      show max x (max (seriesMax (y :: ys)) a) = max (max x (seriesMax (y :: ys))) a
      exact (max_assoc x (seriesMax (y :: ys)) a).symm

theorem get_next_id_fresh (rows : List PersonRow) : ∀ r ∈ rows, r.id < get_next_id rows := by
  intro r hr
  have hne : rows ≠ [] := by
    rintro rfl
    simp at hr
  rw [get_next_id, if_neg hne]
  have hmem : r.id ∈ rows.map PersonRow.id := List.mem_map_of_mem _ hr
  have h2 := seriesMax_le (rows.map PersonRow.id) r.id hmem
  omega

theorem get_next_id_attained (rows : List PersonRow) (hne : rows ≠ []) :
    ∃ r ∈ rows, get_next_id rows = r.id + 1 := by
  have hmapne : rows.map PersonRow.id ≠ [] := by simpa using hne
  have hmem := seriesMax_mem (rows.map PersonRow.id) hmapne
  rcases List.mem_map.mp hmem with ⟨r, hr, hid⟩
  exact ⟨r, hr, by rw [get_next_id, if_neg hne, hid]⟩

theorem get_next_id_perm (rows rows2 : List PersonRow) (hp : rows.Perm rows2) :
    get_next_id rows = get_next_id rows2 := by
  by_cases hne : rows = []
  · subst hne
    rw [List.Perm.eq_nil hp.symm]
  · have hne2 : rows2 ≠ [] := by
      intro h
      subst h
      exact hne (List.Perm.eq_nil hp)
    rw [get_next_id, get_next_id, if_neg hne, if_neg hne2]
    have hmp : (rows.map PersonRow.id).Perm (rows2.map PersonRow.id) := hp.map _
    have h1 : seriesMax (rows.map PersonRow.id) ≤ seriesMax (rows2.map PersonRow.id) :=
      seriesMax_le _ _ (hmp.mem_iff.mp (seriesMax_mem _ (by simpa using hne)))
    have h2 : seriesMax (rows2.map PersonRow.id) ≤ seriesMax (rows.map PersonRow.id) :=
      seriesMax_le _ _ (hmp.mem_iff.mpr (seriesMax_mem _ (by simpa using hne2)))
    omega

theorem get_next_id_append_step (rows : List PersonRow) (p : PersonData) :
    get_next_id (rows ++ [mkRow (get_next_id rows) p]) = get_next_id rows + 1 := by
  by_cases hne : rows = []
  · subst hne
    simp [get_next_id, mkRow, seriesMax]
  · have hmapne : rows.map PersonRow.id ≠ [] := by simpa using hne
    have hids : (rows ++ [mkRow (get_next_id rows) p]).map PersonRow.id
        = rows.map PersonRow.id ++ [get_next_id rows] := by
      simp [mkRow]
    rw [get_next_id, if_neg (by simp)]
    rw [hids, seriesMax_append_one, if_neg hmapne]
    rw [get_next_id, if_neg hne]
    have hmax : max (seriesMax (rows.map PersonRow.id))
        (seriesMax (rows.map PersonRow.id) + 1)
        = seriesMax (rows.map PersonRow.id) + 1 := max_eq_right (by omega)
    rw [hmax]

theorem enroll_all_next_id : ∀ (ps : List (PersonData × Vec)) (s : PStore),
    get_next_id (enroll_all s ps).csv_rows = get_next_id s.csv_rows + ps.length
  | [], s => by simp [enroll_all]
  | (p, e) :: rest, s => by
    show get_next_id (enroll_all (add_person false false false s p e).1 rest).csv_rows = _
    rw [enroll_all_next_id rest _]
    have hstep : (add_person false false false s p e).1.csv_rows
        = s.csv_rows ++ [mkRow (get_next_id s.csv_rows) p] := rfl
    rw [hstep, get_next_id_append_step]
    simp
    omega

/-- Claim C4: `get_next_id` returns 1 on an empty store and the maximum
existing id plus one otherwise — every stored id is strictly below it and it
is some stored id plus one, it is invariant under reordering of the stored
rows (out-of-order loads), and after enrolling N people into an empty store
it returns N + 1. -/
theorem next_id_spec :
    (get_next_id ([]) = 1) ∧
    (∀ rows : List PersonRow, rows ≠ [] →
      (∀ r ∈ rows, r.id < get_next_id rows) ∧
      (∃ r ∈ rows, get_next_id rows = r.id + 1)) ∧
    (∀ rows rows2 : List PersonRow, rows.Perm rows2 →
      get_next_id rows = get_next_id rows2) ∧
    (∀ ps : List (PersonData × Vec),
      get_next_id (enroll_all empty_store ps).csv_rows = (ps.length : ℤ) + 1) := by
  refine ⟨rfl, ?_, get_next_id_perm, ?_⟩
  · intro rows hne
    exact ⟨get_next_id_fresh rows, get_next_id_attained rows hne⟩
  · intro ps
    rw [enroll_all_next_id ps empty_store]
    show get_next_id ([]) + (ps.length : ℤ) = (ps.length : ℤ) + 1
    rw [show get_next_id ([]) = 1 from rfl]
    omega

/-- Witness for C4: a two-row store loaded out of id order (ids 2 then 1)
yields next id 3, strictly above both stored ids. -/
theorem next_id_spec_witness :
    (([sample_row2, sample_row1] : List PersonRow) ≠ []) ∧
    (∀ r ∈ ([sample_row2, sample_row1] : List PersonRow),
      r.id < get_next_id ([sample_row2, sample_row1])) ∧
    get_next_id ([sample_row2, sample_row1]) = 3 := by
  refine ⟨by simp, (next_id_spec.2.1 ([sample_row2, sample_row1]) (by simp)).1, ?_⟩
  rfl

/-! ### Gallery store: round trip and failure behaviour -/

theorem get_person_by_id_append_fresh (rows : List PersonRow) (pid : ℤ)
    (hfresh : ∀ r ∈ rows, r.id ≠ pid) (row : PersonRow) (hrow : row.id = pid) :
    get_person_by_id (rows ++ [row]) pid = some row := by
  show ((rows ++ [row]).filter (fun r => r.id == pid)).head? = some row
  rw [List.filter_append]
  have h1 : rows.filter (fun r => r.id == pid) = [] := by
    rw [List.filter_eq_nil_iff]
    intro r hr
    simpa using hfresh r hr
  rw [h1]
  simp [hrow]

theorem dict_insert_mem (d : List (ℤ × Vec)) (k : ℤ) (v : Vec) :
    (k, v) ∈ dict_insert d k v := by
  by_cases h : d.any (fun q => q.1 == k)
  · rw [dict_insert, if_pos h]
    rcases List.any_eq_true.mp h with ⟨q, hq, hqk⟩
    refine List.mem_map.mpr ⟨q, hq, ?_⟩
    simp [hqk]
  · rw [dict_insert, if_neg h]
    simp

theorem zip_swap_mem (d : List (ℤ × Vec)) (k : ℤ) (v : Vec) (h : (k, v) ∈ d) :
    (v, k) ∈ (d.map Prod.snd).zip (d.map Prod.fst) := by
  induction d with
  | nil => simp at h
  | cons q qs ih =>
    rcases List.mem_cons.mp h with h1 | h2
    · simp [← h1]
    · simp only [List.map_cons, List.zip_cons_cons]
      exact List.mem_cons_of_mem _ (ih h2)

/-- Claim C5: on the no-failure path, `add_person` returns the freshly
assigned id; looking that id up afterwards yields exactly the input record
with the assigned id, the pair `(id, e)` is in the encodings dict (in memory
and as persisted), and the snapshot `get_all_encodings` pairs the input
embedding with the assigned id. -/
theorem add_person_round_trip (s : PStore) (p : PersonData) (e : Vec) :
    (add_person false false false s p e).2 = some (get_next_id s.csv_rows) ∧
    get_person_by_id (add_person false false false s p e).1.csv_rows
        (get_next_id s.csv_rows) = some (mkRow (get_next_id s.csv_rows) p) ∧
    ((get_next_id s.csv_rows), e) ∈ (add_person false false false s p e).1.enc_mem ∧
    (add_person false false false s p e).1.enc_file =
      (add_person false false false s p e).1.enc_mem ∧
    (e, (get_next_id s.csv_rows)) ∈
      ((get_all_encodings (add_person false false false s p e).1.enc_mem).1).zip
        ((get_all_encodings (add_person false false false s p e).1.enc_mem).2) := by
  refine ⟨rfl, ?_, ?_, rfl, ?_⟩
  · show get_person_by_id (s.csv_rows ++ [mkRow (get_next_id s.csv_rows) p])
        (get_next_id s.csv_rows) = some (mkRow (get_next_id s.csv_rows) p)
    refine get_person_by_id_append_fresh _ _ ?_ _ rfl
    intro r hr
    exact ne_of_lt (get_next_id_fresh s.csv_rows r hr)
  · exact dict_insert_mem _ _ _
  · exact zip_swap_mem _ _ _ (dict_insert_mem _ _ _)

/-- Counterexample to C6 as stated: in `SimpleDataManager.add_person`, when
only the embedding write (`pickle.dump`) fails, the call still returns the
assigned id 1 exactly as on success — the CSV row is durable while the
persisted encodings file lacks the embedding, yet no error is raised and no
sentinel is returned. -/
theorem simple_add_person_encoding_failure :
    (simple_add_person false false false true empty_store sample_person sample_vec).2 = 1 ∧
    (simple_add_person false false false true empty_store sample_person sample_vec).1.csv_rows
      = [mkRow 1 sample_person] ∧
    (simple_add_person false false false true empty_store sample_person sample_vec).1.enc_file
      = [] :=
  ⟨rfl, rfl, rfl⟩

/-- Claim C6 (amended): `DataManager.add_person` propagates the exception
(returns no id) whenever reading the table or persisting either half fails,
and an id is returned only when record and embedding are both durable;
`SimpleDataManager.add_person` returns the sentinel `-1` when the CSV
read/write fails, but when only the embedding write fails it returns the
assigned id as if successful while the persisted encodings file is left
unchanged. -/
theorem add_person_failure_behavior :
    (∀ (rf wf ef : Bool) (s : PStore) (p : PersonData) (e : Vec) (pid : ℤ),
      (add_person rf wf ef s p e).2 = some pid →
        rf = false ∧ wf = false ∧ ef = false ∧ pid = get_next_id s.csv_rows ∧
        get_person_by_id (add_person rf wf ef s p e).1.csv_rows pid =
          some (mkRow pid p) ∧
        (pid, e) ∈ (add_person rf wf ef s p e).1.enc_file) ∧
    (∀ (nf ef : Bool) (s : PStore) (p : PersonData) (e : Vec),
      simple_add_person nf true false ef s p e = (s, -1) ∧
      simple_add_person nf false true ef s p e = (s, -1)) ∧
    (∀ (nf : Bool) (s : PStore) (p : PersonData) (e : Vec),
      (simple_add_person nf false false true s p e).1.enc_file = s.enc_file ∧
      (simple_add_person nf false false true s p e).2 =
        simple_get_next_id nf s.csv_rows) := by
  refine ⟨?_, ?_, ?_⟩
  · intro rf wf ef s p e pid h
    cases rf with
    | true => simp [add_person] at h
    | false =>
      cases wf with
      | true => simp [add_person] at h
      | false =>
        cases ef with
        | true => simp [add_person] at h
        | false =>
          have hpid : get_next_id s.csv_rows = pid := by
            simpa [add_person] using h
          subst hpid
          refine ⟨rfl, rfl, rfl, rfl, ?_, ?_⟩
          · show get_person_by_id (s.csv_rows ++ [mkRow (get_next_id s.csv_rows) p])
                (get_next_id s.csv_rows) = some (mkRow (get_next_id s.csv_rows) p)
            refine get_person_by_id_append_fresh _ _ ?_ _ rfl
            intro r hr
            exact ne_of_lt (get_next_id_fresh s.csv_rows r hr)
          · exact dict_insert_mem _ _ _
  · intro nf ef s p e
    exact ⟨rfl, rfl⟩
  · intro nf s p e
    exact ⟨rfl, rfl⟩

/-- Witness for C6 (amended): enrolling into an empty store with no failure
returns id 1 and the embedding is durably stored. -/
theorem add_person_failure_behavior_witness :
    (add_person false false false empty_store sample_person sample_vec).2 = some 1 ∧
    ((1 : ℤ), sample_vec) ∈
      (add_person false false false empty_store sample_person sample_vec).1.enc_file := by
  have h := add_person_failure_behavior.1 false false false empty_store
    sample_person sample_vec 1 rfl
  exact ⟨rfl, h.2.2.2.2.2⟩

/-- Claim C7: at a store whose encodings file holds ids 1 and 2 while the CSV
holds only id 2, `load_known_faces` silently drops id 1: the metadata lists
come back shorter than the encodings list and misaligned (index 0, person
1's encoding, carries person 2's name), and the return value carries no
error signal at all. -/
theorem load_known_faces_silent_drop :
    load_known_faces ([(1, sample_vec), (2, sample_vec2)]) ([sample_row2]) =
      ([sample_vec, sample_vec2], [1, 2], [("Bob")], [("ClassB")], [("R2")]) ∧
    (load_known_faces ([(1, sample_vec), (2, sample_vec2)]) ([sample_row2])).2.2.1.length ≠
      (load_known_faces ([(1, sample_vec), (2, sample_vec2)]) ([sample_row2])).1.length ∧
    (load_known_faces ([(1, sample_vec), (2, sample_vec2)]) ([sample_row2])).2.2.1.getD 0 ((""))
      = ("Bob") := by
  have h : load_known_faces ([(1, sample_vec), (2, sample_vec2)]) ([sample_row2]) =
      ([sample_vec, sample_vec2], [1, 2], [("Bob")], [("ClassB")], [("R2")]) := rfl
  refine ⟨h, ?_, rfl⟩
  rw [h]
  simp

/-! ### Frame processor -/

/-- Claim C3 (evaluation at the failing input): the interactive path
(`draw_face_info`) keeps one pair per detected face, in detection order, with
every coordinate scaled by exactly 4 — `(10,20,30,40)` maps to
`(40,80,120,160)` — but the web path (`web_deploy.recognize_faces_in_frame`)
draws every box once per detected face: with two faces labelled L0 and L1 it
emits four draw operations, and the final (last-drawn) label on box A is L1,
face B's result, not box A's own. -/
theorem web_draw_mispairs :
    (∀ (locs : List Box) (info : List String), info.length = locs.length →
      (draw_face_info locs info).length = locs.length) ∧
    draw_face_info ([boxA]) (["L0"]) = [((⟨40, 80, 120, 160⟩ : Box), ("L0"))] ∧
    draw_face_info ([boxA, boxB]) (["L0", "L1"]) =
      [(scaleBox boxA, ("L0")), (scaleBox boxB, ("L1"))] ∧
    web_draw_ops ([boxA, boxB]) (["L0", "L1"]) =
      [(scaleBox boxA, ("L0")), (scaleBox boxB, ("L0")),
        (scaleBox boxA, ("L1")), (scaleBox boxB, ("L1"))] ∧
    (web_draw_ops ([boxA, boxB]) (["L0", "L1"])).length ≠
      ([boxA, boxB] : List Box).length := by
  refine ⟨?_, rfl, rfl, rfl, by decide⟩
  intro locs info h
  simp [draw_face_info, h]

/-! ### Camera fallback and loop bounds -/

theorem try_cameras_eq_none (f : ℕ → Option Unit) :
    ∀ l : List ℕ, try_cameras f l = none ↔ ∀ i ∈ l, f i = none := by
  intro l
  induction l with
  | nil => simp [try_cameras]
  | cons i is ih =>
    cases hf : f i with
    | some v => simp [try_cameras, hf]
    | none => simp [try_cameras, hf, ih]

/-- Claim C8: the registration capture tries the fixed fallback list `[0,1,2]`
in order, returns the first success, and reports overall failure exactly when
every index in the list failed; every camera that was actually opened along
the way is released again (the `finally` discipline); `run_recognition` tries
its single fixed index 0 and, when that open fails, aborts with
camera-unavailable before acquiring anything. -/
theorem camera_fallback_behavior :
    (∀ f : ℕ → Option Unit,
      try_cameras f camera_fallback = none ↔ ∀ i ∈ camera_fallback, f i = none) ∧
    (∀ (f : ℕ → Option Unit) (v : Unit), f 0 = some v →
      try_cameras f camera_fallback = some v) ∧
    (∀ (avail : ℕ → Bool) (reads faces encOk : ℕ → ℕ → Bool) (keys : ℕ → ℕ → ℕ),
      (∀ i ∈ camera_fallback, avail i = false) →
        capture_face_encoding avail reads faces encOk keys = none) ∧
    (∀ (avail : ℕ → Bool) (f : ℕ → Option Unit) (i : ℕ),
      CamEvent.opened i ∈ capture_face_encoding_trace avail f →
        CamEvent.released i ∈ capture_face_encoding_trace avail f) ∧
    (∀ avail : ℕ → Bool, avail 0 = false →
      run_recognition_open avail = StartResult.cameraUnavailable ∧
      CamEvent.opened 0 ∉ run_recognition_trace avail) := by
  refine ⟨fun f => try_cameras_eq_none f camera_fallback, ?_, ?_, ?_, ?_⟩
  · intro f v h
    simp [camera_fallback, try_cameras, h]
  · intro avail rs fs es ks h
    apply (try_cameras_eq_none _ _).mpr
    intro i hi
    simp [capture_from_webcam, h i hi]
  · intro avail f i h
    rcases List.mem_flatMap.mp h with ⟨j, hj, hmem⟩
    by_cases ha : avail j = true
    · have hij : i = j := by
        simp [capture_from_webcam_trace, ha] at hmem
        exact hmem
      subst hij
      exact List.mem_flatMap.mpr ⟨i, hj, by simp [capture_from_webcam_trace, ha]⟩
    · rw [Bool.not_eq_true] at ha
      simp [capture_from_webcam_trace, ha] at hmem
  · intro avail h
    constructor
    · simp [run_recognition_open, h]
    · simp [run_recognition_trace, h]

/-- Witness for C8: with no camera available, registration capture returns
`none` and the recognizer reports camera-unavailable. -/
theorem camera_fallback_behavior_witness :
    (∀ i ∈ camera_fallback, (fun _ : ℕ => false) i = false) ∧
    capture_face_encoding (fun _ => false) (fun _ _ => true) (fun _ _ => true)
      (fun _ _ => true) (fun _ _ => 0) = none ∧
    run_recognition_open (fun _ => false) = StartResult.cameraUnavailable := by
  refine ⟨by simp, ?_, ?_⟩
  · exact camera_fallback_behavior.2.2.1 (fun _ => false) (fun _ _ => true)
      (fun _ _ => true) (fun _ _ => true) (fun _ _ => 0) (by simp)
  · exact (camera_fallback_behavior.2.2.2.2 (fun _ => false) rfl).1

theorem recog_run_quiet (n : ℕ) :
    recog_run (fun _ => true) (fun _ => 0) n = ⟨n, 0.6, true⟩ := by
  induction n with
  | zero => rfl
  | succ k ih =>
    show recog_step (fun _ => true) (fun _ => 0)
      (recog_run (fun _ => true) (fun _ => 0) k) = _
    rw [ih]
    simp [recog_step]

/-- Counterexample to C9 as stated: the interactive recognition loop of
`run_recognition` is `while True` with no iteration bound — with successful
reads and no key pressed it is still running after every number of
iterations, so no explicit maximum iteration count bounds it. -/
theorem recognition_loop_never_halts :
    ¬ ∃ B : ℕ, (recog_run (fun _ => true) (fun _ => 0) B).running = false := by
  rintro ⟨B, hB⟩
  rw [recog_run_quiet B] at hB
  simp at hB

theorem capture_iters_le (reads faces encOk : ℕ → Bool) (keys : ℕ → ℕ) :
    ∀ fuel t, capture_iters reads faces encOk keys fuel t ≤ fuel := by
  intro fuel
  induction fuel with
  | zero =>
    intro t
    simp [capture_iters]
  | succ k ih =>
    intro t
    simp only [capture_iters]
    split_ifs with h1 h2 h3
    · omega
    · omega
    · omega
    · have h4 := ih (t + 1)
      omega

/-- Claim C9 (amended): only the registration capture loop is bounded by an
explicit maximum iteration count (`max_attempts = 100`); the interactive
recognition loop runs without any bound while reads succeed and no quit key
arrives, and the streamed-mode `generate_frames` loop never leaves its
`while True`. -/
theorem loop_iteration_bounds :
    (∀ (reads faces encOk : ℕ → Bool) (keys : ℕ → ℕ) (t : ℕ),
      capture_iters reads faces encOk keys 100 t ≤ 100) ∧
    (∀ B : ℕ, (recog_run (fun _ => true) (fun _ => 0) B).running = true) ∧
    (∀ (frameOk encodeOk : ℕ → Bool) (n : ℕ),
      (gen_frames_state frameOk encodeOk n).2 = true) := by
  refine ⟨fun r f e k t => capture_iters_le r f e k 100 t, ?_, ?_⟩
  · intro B
    rw [recog_run_quiet B]
  · intro fo eo n
    induction n with
    | zero => rfl
    | succ k ih =>
      cases h : fo k && eo k <;> simp [gen_frames_state, h]

/-- Claim C10: when reading the CSV raises, `SimpleDataManager.get_next_id`
returns 1 regardless of enrolled persons, so a subsequent `add_person` whose
own read succeeds assigns id 1 on top of an existing id 1 (duplicate ids);
and when the CSV read or write inside `add_person` fails it returns the
sentinel `-1` instead of raising. -/
theorem simple_manager_duplicate_ids :
    (∀ rows : List PersonRow, simple_get_next_id true rows = 1) ∧
    (∀ (s : PStore) (p : PersonData) (e : Vec),
      (∃ r ∈ s.csv_rows, r.id = 1) →
        (simple_add_person true false false false s p e).2 = 1 ∧
        2 ≤ ((simple_add_person true false false false s p e).1.csv_rows.countP
              (fun r => r.id == 1))) ∧
    (∀ (nf rf wf ef : Bool) (s : PStore) (p : PersonData) (e : Vec),
      rf = true ∨ wf = true → simple_add_person nf rf wf ef s p e = (s, -1)) := by
  refine ⟨fun rows => rfl, ?_, ?_⟩
  · intro s p e hmem
    refine ⟨rfl, ?_⟩
    show 2 ≤ (s.csv_rows ++ [mkRow 1 p]).countP (fun r => r.id == 1)
    rw [List.countP_append]
    have h1 : 0 < s.csv_rows.countP (fun r => r.id == 1) := by
      apply List.countP_pos_iff.mpr
      rcases hmem with ⟨r, hr, hrid⟩
      exact ⟨r, hr, by simpa using hrid⟩
    have h2 : ([mkRow 1 p] : List PersonRow).countP (fun r => r.id == 1) = 1 := by
      simp [mkRow]
    omega
  · intro nf rf wf ef s p e h
    rcases h with h | h
    · subst h
      rfl
    · subst h
      cases rf with
      | false => rfl
      | true => rfl

/-- Witness for C10: a store already holding id 1; with the `get_next_id`
read failing, `add_person` returns id 1 again and the table then holds two
rows with id 1. -/
theorem simple_manager_duplicate_ids_witness :
    (∃ r ∈ ([sample_row1] : List PersonRow), r.id = 1) ∧
    (simple_add_person true false false false (⟨[sample_row1], [], []⟩ : PStore)
      sample_person sample_vec).2 = 1 ∧
    2 ≤ ((simple_add_person true false false false (⟨[sample_row1], [], []⟩ : PStore)
      sample_person sample_vec).1.csv_rows.countP (fun r => r.id == 1)) := by
  have h := simple_manager_duplicate_ids.2.1 (⟨[sample_row1], [], []⟩ : PStore)
    sample_person sample_vec ⟨sample_row1, by simp, rfl⟩
  exact ⟨⟨sample_row1, by simp, rfl⟩, h.1, h.2⟩

end FaceDetector
